import Mathlib

/-!
Verification of the mlx-openai-tts request-serving core against its
natural-language specification.  The Lean definitions below are shallow
embeddings of the Python source files `registry.py`, `engine.py`,
`audio.py`, `server.py`, `models/kokoro.py` and `models/chatterbox.py`.
Strings model Python strings, association lists model insertion-ordered
dictionaries, rationals model the float audio samples (only clipping,
scaling and truncation are performed on them, which are exact), and a
natural-number allocation counter models object identity of loaded
engine/adapter pairs.
-/

/-! ## Python string primitives

Python's `str.strip`, `str.lower` and the regex class `\s` are modelled on
the character lists underlying Lean strings (on ASCII text the Python and
model behaviours coincide), so that every definition evaluates by kernel
reduction. -/

/-- Python `\s` on ASCII text (also the characters `str.strip` removes). -/
def isPySpace (c : Char) : Bool :=
  c = ' ' || c = '\t' || c = '\n' || c = '\r' || c = '\x0b' || c = '\x0c'

/-- Effect of `str.strip()`: drop whitespace from both ends. -/
def stripChars (cs : List Char) : List Char :=
  ((cs.dropWhile isPySpace).reverse.dropWhile isPySpace).reverse

/-- Embedding of `str.strip()` on strings. -/
def pyStrip (s : String) : String := String.mk (stripChars s.data)

/-- Embedding of `str.lower()` on (ASCII) strings. -/
def pyLower (s : String) : String := String.mk (s.data.map Char.toLower)

/-! ## Registry (`registry.py`) -/

/-- Embedding of the pydantic `ModelSpec` model (post schema validation). -/
structure ModelSpec where
  id : String
  repo_id : String
  model_type : String := "kokoro"
  voices : List String := []
  default_voice : Option String := none
  warmup_text : Option String := none
deriving Repr, DecidableEq

/-- Embedding of the pydantic `ModelRegistry` model (post schema validation). -/
structure ModelRegistry where
  default_model : Option String := none
  models : List ModelSpec
deriving Repr, DecidableEq

/-- Embedding of `ResolvedRegistry`: the normalized catalog, the id-indexed
insertion-ordered mapping, and the resolved default model id. -/
structure ResolvedRegistry where
  registry : ModelRegistry
  models_by_id : List (String × ModelSpec)
  default_model : String
deriving Repr, DecidableEq

/-- Voice-list normalization performed inside `load_registry_payload`:
`[voice.strip() for voice in spec.voices if voice.strip()]`. -/
def normVoices (voices : List String) : List String :=
  (voices.map pyStrip).filter (fun v => v ≠ "")

/-- The per-spec normalization of `default_voice`: when it is unset and the
normalized voice list is non-empty it becomes the first voice. -/
def normDefaultVoice (dv : Option String) (voices : List String) : Option String :=
  match dv with
  | none => voices.head?
  | some v => some v

/-- The validation loop of `load_registry_payload`, processing specs in order
while building the insertion-ordered `models_by_id` mapping. -/
def loadSpecs : List ModelSpec → List (String × ModelSpec) → Except String (List (String × ModelSpec))
  | [], acc => Except.ok acc
  | spec :: rest, acc =>
    let model_id := pyStrip spec.id
    if model_id = "" then Except.error "Model id must be non-empty"
    else if ((acc.map Prod.fst).contains model_id) then
      Except.error ("Duplicate model id " ++ model_id ++ " in models JSON")
    else if pyStrip spec.repo_id = "" then
      Except.error ("Model " ++ model_id ++ " repo_id must be non-empty")
    else
      let voices := normVoices spec.voices
      let dv := normDefaultVoice spec.default_voice voices
      match spec.default_voice with
      | some v =>
        if voices ≠ [] ∧ v ∉ voices then
          Except.error ("Model " ++ model_id ++ " default_voice " ++ v ++ " not in voices list")
        else
          loadSpecs rest (acc ++ [(model_id, { spec with voices := voices, default_voice := dv })])
      | none =>
        loadSpecs rest (acc ++ [(model_id, { spec with voices := voices, default_voice := dv })])

/-- Resolution of the default model id: `registry.default_model or
registry.models[0].id` (the empty string is falsy in Python). -/
def resolvedDefaultId (dm : Option String) (first : ModelSpec) : String :=
  match dm with
  | none => first.id
  | some s => if s = "" then first.id else s

/-- Embedding of `load_registry_payload` on an already schema-validated
`ModelRegistry` payload. -/
def load_registry_payload (registry : ModelRegistry) : Except String ResolvedRegistry :=
  match registry.models with
  | [] => Except.error "Models JSON must contain at least one model"
  | first :: _ =>
    match loadSpecs registry.models [] with
    | Except.error e => Except.error e
    | Except.ok byId =>
      let dm := resolvedDefaultId registry.default_model first
      if ((byId.map Prod.fst).contains dm) then
        Except.ok ⟨{ registry with models := byId.map Prod.snd }, byId, dm⟩
      else
        Except.error ("default_model " ++ dm ++ " not found in models list")

/-- Per-spec validity used by the success characterizations. -/
def dvOkB (s : ModelSpec) : Bool :=
  match s.default_voice with
  | none => true
  | some v => decide (normVoices s.voices = []) || (normVoices s.voices).contains v

/-- Per-spec validity: non-empty trimmed id and repo id, and a consistent
declared default voice. -/
def specOk (s : ModelSpec) : Prop :=
  pyStrip s.id ≠ "" ∧ pyStrip s.repo_id ≠ "" ∧ dvOkB s = true

/-- Success condition claimed by the specification sentence for
`loadRegistry` (model ids unique and non-empty, declared default voices
members of their normalized voice lists when non-empty, declared
`default_model` a catalog id), read on trimmed ids.  It omits the
`repo_id` requirement enforced by the code. -/
def claimRegistryCond (r : ModelRegistry) : Prop :=
  (∀ s ∈ r.models, pyStrip s.id ≠ "" ∧ dvOkB s = true)
  ∧ (r.models.map (fun s => pyStrip s.id)).Nodup
  ∧ (∀ d, r.default_model = some d → d ∈ r.models.map (fun s => pyStrip s.id))

/-- The success condition actually enforced by `load_registry_payload` on a
catalog whose first model is `first`: additionally every `repo_id` is
non-empty after trimming, and the resolved default id (the declared
`default_model` when set and non-empty, otherwise the first model raw id)
is a trimmed catalog id. -/
def amendedRegistryCond (first : ModelSpec) (r : ModelRegistry) : Prop :=
  (∀ s ∈ r.models, specOk s)
  ∧ (r.models.map (fun s => pyStrip s.id)).Nodup
  ∧ resolvedDefaultId r.default_model first ∈ r.models.map (fun s => pyStrip s.id)

/-- Concrete catalog payload with an empty `repo_id` used to separate the
spec sentence from the code. -/
def repoIdCounterexReg : ModelRegistry :=
  { default_model := none
    models := [{ id := "m", repo_id := "" }] }

/-! ## Audio pipeline (`audio.py`) -/

/-- Clipping of a float sample to `[-1, 1]` (`np.clip(audio, -1.0, 1.0)`),
modelled exactly on the rationals. -/
def clipSample (x : ℚ) : ℚ := max (-1) (min 1 x)

/-- Truncation toward zero, the behaviour of `astype(np.int16)` on a float
already inside the int16 range. -/
def truncToInt (q : ℚ) : ℤ := if 0 ≤ q then ⌊q⌋ else ⌈q⌉

/-- Little-endian byte pair of an int16 value (two's complement), the
per-sample layout of `np.int16.tobytes`. -/
def int16LEBytes (i : ℤ) : List ℕ :=
  ((i % 65536).toNat % 256) :: [(i % 65536).toNat / 256]

/-- Embedding of `_pcm_s16le_bytes`: clip to `[-1, 1]`, scale by 32767,
truncate to int16 and serialize little-endian. -/
def pcm_s16le_bytes (audio : List ℚ) : List ℕ :=
  (audio.map (fun x => int16LEBytes (truncToInt (clipSample x * 32767)))).flatten

/-- The message of the `RuntimeError` raised when the engine yields no
chunk. -/
def noAudioMsg : String := "MLX pipeline produced no audio. Check voice configuration."

/-- Embedding of `stream_pcm_audio`: the inner generator is forced once
before anything is returned; on an empty chunk sequence the
`RuntimeError` escapes, otherwise the eagerly produced first encoded
chunk and the lazily encoded remainder form the returned iterable. -/
def stream_pcm_audio (chunks : List (List ℚ)) : Except String (List ℕ × List (List ℕ)) :=
  match chunks with
  | [] => Except.error noAudioMsg
  | first :: rest => Except.ok (pcm_s16le_bytes first, rest.map pcm_s16le_bytes)

/-- Standard base64 alphabet. -/
def b64Alphabet : List Char :=
  "ABCDEFGHIJKLMNOPQRSTUVWXYZabcdefghijklmnopqrstuvwxyz0123456789+/".data

/-- Base64 digit for a 6-bit group. -/
def b64Char (n : ℕ) : Char := b64Alphabet.getD n 'A'

/-- Embedding of `base64.b64encode` on a byte list. -/
def b64encode : List ℕ → List Char
  | b1 :: b2 :: b3 :: rest =>
    b64Char (b1 / 4) :: b64Char (b1 % 4 * 16 + b2 / 16) ::
      b64Char (b2 % 16 * 4 + b3 / 64) :: b64Char (b3 % 64) :: b64encode rest
  | [b1, b2] => [b64Char (b1 / 4), b64Char (b1 % 4 * 16 + b2 / 16), b64Char (b2 % 16 * 4), '=']
  | [b1] => [b64Char (b1 / 4), b64Char (b1 % 4 * 16), '=', '=']
  | [] => []

/-- Constant part of a delta event before the base64 payload. -/
def deltaPre : String := "data: \x7b\"type\":\"speech.audio.delta\",\"audio\":\""

/-- Constant part of a delta event after the base64 payload. -/
def deltaSuf : String := "\"\x7d\n\n"

/-- Embedding of `_sse_event` applied to the `speech.audio.delta` payload of
a chunk (compact JSON, insertion-ordered keys). -/
def sseDelta (chunk : List ℕ) : String :=
  deltaPre ++ String.mk (b64encode chunk) ++ deltaSuf

/-- Embedding of `_sse_event` applied to the terminal `speech.audio.done`
payload with its zeroed usage summary. -/
def sseDone : String :=
  "data: \x7b\"type\":\"speech.audio.done\",\"usage\":\x7b\"input_tokens\":0,\"output_tokens\":0,\"total_tokens\":0\x7d\x7d\n\n"

/-- Embedding of `stream_sse`: one delta event per non-empty byte chunk, in
order, then the single done event. -/
def stream_sse : List (List ℕ) → List String
  | [] => [sseDone]
  | c :: rest => if c = [] then stream_sse rest else sseDelta c :: stream_sse rest

/-! ## Request text validation (`server.py`) -/

/-- Effect of `re.sub(r"\s+", " ", text)`: every maximal whitespace run
becomes a single space. -/
def collapseWs : List Char → List Char
  | [] => []
  | [c] => [if isPySpace c then ' ' else c]
  | c1 :: c2 :: rest =>
    if isPySpace c1 && isPySpace c2 then collapseWs (c2 :: rest)
    else (if isPySpace c1 then ' ' else c1) :: collapseWs (c2 :: rest)

/-- Embedding of `_normalize_text`. -/
def normalize_text (s : String) : String :=
  String.mk (stripChars (collapseWs s.data))

/-- Whitespace-separated words of a character list (Python `str.split()`),
used to state the specified normal form. -/
def wsWords : List Char → List (List Char)
  | [] => []
  | c :: rest =>
    if isPySpace c then wsWords rest
    else (c :: rest.takeWhile (fun d => !isPySpace d)) ::
      wsWords (rest.dropWhile (fun d => !isPySpace d))
termination_by cs => cs.length
decreasing_by
  · simp only [List.length_cons]
    omega
  · simp only [List.length_cons]
    have := List.Sublist.length_le (List.dropWhile_sublist (l := rest) (fun d => !isPySpace d))
    omega

/-- Embedding of the input-validation prefix of the `audio_speech` handler:
normalize first, then reject empty or over-long text with HTTP 400. -/
def validate_input (maxChars : ℕ) (input : String) : Except (ℕ × String) String :=
  let text := normalize_text input
  if text = "" then Except.error (400, "input must be non-empty")
  else if text.length > maxChars then Except.error (400, "input too long")
  else Except.ok text

/-! ## Kokoro adapter (`models/kokoro.py`) -/

/-- Embedding of `KokoroAdapter.resolve_voice` (the voice-required
adapter). -/
def kokoro_resolve_voice (spec : ModelSpec) (requested : Option String) : Except String String :=
  match requested with
  | none =>
    match spec.default_voice with
    | none => Except.error "voice is required for this model"
    | some v => Except.ok v
  | some rv =>
    let voice_id := pyStrip rv
    if voice_id = "" then Except.error "voice must be non-empty"
    else if spec.voices ≠ [] ∧ voice_id ∉ spec.voices then
      Except.error ("Unknown voice " ++ voice_id)
    else Except.ok voice_id

/-! ## Chatterbox adapter (`models/chatterbox.py`) -/

/-- Filesystem context seen by the chatterbox voice resolver: the
configured clone-directory path (empty string is falsy in Python) and,
when that path is an existing directory, its listing.  Every listed entry
is modelled as a regular file on a case-sensitive filesystem. -/
structure CloneDirEnv where
  voice_clone_dir : Option String
  listing : Option (List String)
deriving Repr, DecidableEq

/-- Embedding of `ChatterboxAdapter._find_voice_file`: exact match first,
then the first case-insensitive match in directory order. -/
def find_voice_file (dir : String) (entries : List String) (filename : String) : Option String :=
  if entries.contains filename then some (dir ++ "/" ++ filename)
  else
    match entries.find? (fun e => pyLower e = pyLower filename) with
    | some e => some (dir ++ "/" ++ e)
    | none => none

/-- Embedding of `os.path.splitext` on a separator-free filename: split at
the last dot unless every character before it is a dot. -/
def splitext (cs : List Char) : List Char × List Char :=
  let revExt := cs.reverse.takeWhile (fun c => c ≠ '.')
  let revRest := cs.reverse.dropWhile (fun c => c ≠ '.')
  match revRest with
  | [] => (cs, [])
  | _ :: revRoot =>
    if revRoot.all (fun c => c = '.') then (cs, [])
    else (revRoot.reverse, '.' :: revExt.reverse)

/-- Embedding of `ChatterboxAdapter._resolve_ref_audio`. -/
def resolve_ref_audio (env : CloneDirEnv) (voice : String) : Except String String :=
  let value := pyStrip voice
  if value = "" then Except.error "voice must be non-empty"
  else if value = "." ∨ value = ".." then Except.error "voice must be a filename, not a path"
  else if value.data.contains '/' then Except.error "voice must be a filename, not a path"
  else
    match env.voice_clone_dir with
    | none => Except.error "Voice cloning requires TTS_VOICE_CLONE_DIR to be set"
    | some dir =>
      if dir = "" then Except.error "Voice cloning requires TTS_VOICE_CLONE_DIR to be set"
      else
        match env.listing with
        | none => Except.error ("Voice clone directory " ++ dir ++ " does not exist or is not a directory")
        | some entries =>
          let rootExt := splitext value.data
          if rootExt.2 ≠ [] then
            if pyLower (String.mk rootExt.2) ≠ ".wav" ∧ pyLower (String.mk rootExt.2) ≠ ".flac" then
              Except.error ("Unsupported voice extension " ++ String.mk rootExt.2 ++ ". Allowed: .flac, .wav")
            else
              match find_voice_file dir entries value with
              | some p => Except.ok p
              | none => Except.error ("Voice file " ++ value ++ " not found in " ++ dir)
          else
            match find_voice_file dir entries (String.mk rootExt.1 ++ ".wav") with
            | some p => Except.ok p
            | none =>
              match find_voice_file dir entries (String.mk rootExt.1 ++ ".flac") with
              | some p => Except.ok p
              | none => Except.error ("Voice file " ++ value ++ " not found in " ++ dir)

/-- Embedding of `ChatterboxAdapter.resolve_voice` (the voice-optional
cloning adapter). -/
def chatterbox_resolve_voice (env : CloneDirEnv) (requested : Option String) :
    Except String (Option String) :=
  match requested with
  | none => Except.ok none
  | some rv =>
    let value := pyStrip rv
    if value = "" then Except.error "voice must be non-empty"
    else if pyLower value = "default" then Except.ok none
    else (resolve_ref_audio env value).map some

/-- Case-insensitive existence of a filename among the directory entries,
the condition under which `_find_voice_file` succeeds. -/
def entryMatchB (entries : List String) (filename : String) : Bool :=
  entries.any (fun e => pyLower e = pyLower filename)

/-- Concrete clone directory containing both `clip.wav` and `clip.flac`. -/
def bothClipEnv : CloneDirEnv :=
  { voice_clone_dir := some "/voices", listing := some ["clip.wav", "clip.flac"] }

/-! ## Model manager (`engine.py`) -/

/-- Static context of a `ModelManager`: the catalog ids in registry order,
the default model id, and which model loads succeed (`_load_engine`
behaviour, a fixed property of the environment for the process
lifetime). -/
structure EngineEnv where
  registryIds : List String
  defaultModel : String
  loadOk : String → Bool

/-- Mutable state of a `ModelManager`.  Engine/adapter pairs are identified
by the allocation counter value at their creation, so `nextId` doubles as
the load counter and equal numbers mean the identical cached pair. -/
structure MMState where
  active : Option (String × ℕ)
  cache : List (String × ℕ)
  nextId : ℕ
deriving Repr, DecidableEq

/-- The empty initial state of `ModelManager.__init__`. -/
def initMMState : MMState := ⟨none, [], 0⟩

/-- Embedding of `ModelManager._get_cached_engine` composed with
`_load_engine`: return the cached pair, or load (if loading this id
succeeds), append to the cache and bump the allocation counter. -/
def getCachedEngine (env : EngineEnv) (s : MMState) (id : String) :
    Except String (ℕ × MMState) :=
  match s.cache.lookup id with
  | some e => Except.ok (e, s)
  | none =>
    if env.loadOk id then
      Except.ok (s.nextId, { s with cache := s.cache ++ [(id, s.nextId)], nextId := s.nextId + 1 })
    else Except.error ("Failed to load model " ++ id)

/-- Slow path of `ModelManager.get_engine`: registry lookup, lock, cache
fetch or load, and activation. -/
def getEngineSlow (env : EngineEnv) (s : MMState) (key : String) :
    Except String (ℕ × MMState) :=
  if !env.registryIds.contains key then Except.error ("Invalid model " ++ key)
  else
    match getCachedEngine env s key with
    | Except.error e => Except.error e
    | Except.ok (eng, s1) => Except.ok (eng, { s1 with active := some (key, eng) })

/-- Embedding of `ModelManager.get_engine` (sequentialized: the second
check of the double-checked locking pattern sees the same state as the
first). -/
def get_engine (env : EngineEnv) (s : MMState) (key : String) :
    Except String (ℕ × MMState) :=
  match s.active with
  | some (k, e) =>
    if k = key then Except.ok (e, s)
    else getEngineSlow env s key
  | none => getEngineSlow env s key

/-- Embedding of `ModelManager.load_default`: obtain the default model via
the cache and make it active.  The warmup synthesis that follows does not
modify manager state and is elided. -/
def load_default (env : EngineEnv) (s : MMState) : Except String MMState :=
  match getCachedEngine env s env.defaultModel with
  | Except.error e => Except.error e
  | Except.ok (eng, s1) => Except.ok { s1 with active := some (env.defaultModel, eng) }

/-- The `RuntimeError` message of a preload failure in
`ModelManager.load_all` (the wrapped inner exception message is elided). -/
def preloadErrMsg (id : String) : String :=
  "Failed to preload model " ++ id ++ ": load error"

/-- Loop body of `ModelManager.load_all` over the remaining catalog ids:
skip cached ids, load and append otherwise, abort on the first failure
keeping the state reached so far. -/
def loadAllGo (env : EngineEnv) : List String → MMState → MMState × Option String
  | [], s => (s, none)
  | id :: rest, s =>
    if (s.cache.lookup id).isSome then loadAllGo env rest s
    else if env.loadOk id then
      loadAllGo env rest { s with cache := s.cache ++ [(id, s.nextId)], nextId := s.nextId + 1 }
    else (s, some (preloadErrMsg id))

/-- Embedding of `ModelManager.load_all`: the resulting state (also on
failure, since the cache is append-only and never rolled back) paired with
the error, if any. -/
def load_all (env : EngineEnv) (s : MMState) : MMState × Option String :=
  loadAllGo env env.registryIds s

/-- The public operations a client can perform on a `ModelManager`. -/
inductive MMOp where
  | loadDefault : MMOp
  | loadAll : MMOp
  | getEngine : String → MMOp
deriving Repr, DecidableEq

/-- State reached after one operation; a raised exception leaves the state
that the Python code had at the raise point. -/
def mmStep (env : EngineEnv) (s : MMState) : MMOp → MMState
  | MMOp.loadDefault =>
    match load_default env s with
    | Except.ok s1 => s1
    | Except.error _ => s
  | MMOp.loadAll => (load_all env s).1
  | MMOp.getEngine k =>
    match get_engine env s k with
    | Except.ok (_, s1) => s1
    | Except.error _ => s

/-- State reached after a sequence of operations. -/
def mmRun (env : EngineEnv) (ops : List MMOp) (s : MMState) : MMState :=
  ops.foldl (mmStep env) s

/-- The claimed manager invariant: a non-empty active slot is cached under
its key with the identical pair. -/
def mmInv (s : MMState) : Prop :=
  ∀ k e, s.active = some (k, e) → s.cache.lookup k = some e

/-! ## Theorems -/

/-- Shared fixed environment for concrete instantiations: one catalog model
`"a"` which loads successfully. -/
def envOneModel : EngineEnv := ⟨["a"], "a", fun _ => true⟩

/-- Shared fixed environment: models `"a"` and `"b"`, where loading `"b"`
fails. -/
def envFailB : EngineEnv := ⟨["a", "b"], "a", fun i => i == "a"⟩

/-- C1: for the chunked-PCM streaming path, the `RuntimeError` for an empty
chunk sequence is raised before any byte iterable is returned: the result
of `stream_pcm_audio` is the no-audio error exactly when the engine
produced zero chunks, and otherwise it is the encoded first chunk together
with the encoded remainder. -/
theorem stream_pcm_audio_empty_error (chunks : List (List ℚ)) :
    stream_pcm_audio chunks = Except.error noAudioMsg ↔ chunks = [] := by
  cases chunks with
  | nil => simp [stream_pcm_audio]
  | cons c rest => simp [stream_pcm_audio]

/-- A delta event is never the done event: their first thirty characters
already differ. -/
theorem sseDelta_ne_sseDone (c : List ℕ) : sseDelta c ≠ sseDone := by
  intro h
  have hdata : (sseDelta c).data = sseDone.data := congrArg String.data h
  have hshape : (sseDelta c).data = (deltaPre.data ++ b64encode c) ++ deltaSuf.data := by
    simp [sseDelta, String.data_append]
  have hlen : (30 : ℕ) ≤ (deltaPre.data ++ b64encode c).length := by
    rw [List.length_append]
    have : deltaPre.data.length = 44 := by decide
    omega
  have hlen2 : (30 : ℕ) ≤ deltaPre.data.length := by
    have : deltaPre.data.length = 44 := by decide
    omega
  have htake : (sseDelta c).data.take 30 = deltaPre.data.take 30 := by
    rw [hshape, List.take_append_of_le_length hlen, List.take_append_of_le_length hlen2]
  rw [hdata] at htake
  have : sseDone.data.take 30 ≠ deltaPre.data.take 30 := by decide
  exact this htake

/-- Helper equation: the event list of `stream_sse` is one delta per
non-empty chunk, in order, followed by the done event. -/
theorem stream_sse_eq (chunks : List (List ℕ)) :
    stream_sse chunks = (chunks.filter (fun c => c ≠ [])).map sseDelta ++ [sseDone] := by
  induction chunks with
  | nil => simp [stream_sse]
  | cons c rest ih =>
    by_cases hc : c = []
    · subst hc
      simpa [stream_sse] using ih
    · simp [stream_sse, hc, ih]

/-- C6: the server-sent-event stream emits one `speech.audio.delta` event
(with base64 audio) per non-empty chunk in order, skips empty chunks, and
ends with exactly one `speech.audio.done` event, also when no delta event
was emitted. -/
theorem stream_sse_delta_then_single_done (chunks : List (List ℕ)) :
    stream_sse chunks = (chunks.filter (fun c => c ≠ [])).map sseDelta ++ [sseDone]
    ∧ (stream_sse chunks).count sseDone = 1 := by
  refine ⟨stream_sse_eq chunks, ?_⟩
  rw [stream_sse_eq chunks, List.count_append]
  have hzero : ((chunks.filter (fun c => c ≠ [])).map sseDelta).count sseDone = 0 := by
    rw [List.count_eq_zero]
    intro hmem
    obtain ⟨a, _, ha⟩ := List.mem_map.mp hmem
    exact sseDelta_ne_sseDone a ha
  rw [hzero]
  simp

/-- Shared concrete kokoro-style spec for instantiations. -/
def kokoroExSpec : ModelSpec :=
  { id := "kokoro", repo_id := "repo", voices := ["af", "bf"], default_voice := some "af" }

/-- C8: the voice-required adapter returns the spec default on a missing
voice (failing when none is configured), rejects empty or whitespace-only
voices, and for a non-empty trimmed voice id fails exactly when the spec
voice list is non-empty and excludes it, returning the id itself
otherwise. -/
theorem kokoro_resolve_voice_cases (spec : ModelSpec) (x y : String)
    (hx : pyStrip x = x) (hxne : x ≠ "") (hy : pyStrip y = "") :
    ((∀ v, spec.default_voice = some v → kokoro_resolve_voice spec none = Except.ok v)
      ∧ (spec.default_voice = none →
          kokoro_resolve_voice spec none = Except.error "voice is required for this model"))
    ∧ kokoro_resolve_voice spec (some y) = Except.error "voice must be non-empty"
    ∧ ((∃ m, kokoro_resolve_voice spec (some x) = Except.error m)
        ↔ (spec.voices ≠ [] ∧ x ∉ spec.voices))
    ∧ ((spec.voices = [] ∨ x ∈ spec.voices) → kokoro_resolve_voice spec (some x) = Except.ok x) := by
  refine ⟨⟨?_, ?_⟩, ?_, ?_, ?_⟩
  · intro v hv
    simp [kokoro_resolve_voice, hv]
  · intro hv
    simp [kokoro_resolve_voice, hv]
  · simp [kokoro_resolve_voice, hy]
  · constructor
    · rintro ⟨m, hm⟩
      by_contra hcond
      rw [kokoro_resolve_voice] at hm
      simp only [hx, if_neg hxne] at hm
      split at hm
      · exact hcond (by assumption)
      · exact Except.noConfusion hm
    · intro hcond
      refine ⟨"Unknown voice " ++ x, ?_⟩
      rw [kokoro_resolve_voice]
      simp only [hx, if_neg hxne]
      rw [if_pos hcond]
  · intro hcond
    rw [kokoro_resolve_voice]
    simp only [hx, if_neg hxne]
    rw [if_neg]
    rcases hcond with h | h
    · simp [h]
    · simp [h]

/-- Concrete instantiation of the voice-required adapter cases. -/
theorem kokoro_resolve_voice_cases_witness :
    (pyStrip "af" = "af" ∧ "af" ≠ "" ∧ pyStrip " " = "")
    ∧ (((∀ v, kokoroExSpec.default_voice = some v →
            kokoro_resolve_voice kokoroExSpec none = Except.ok v)
        ∧ (kokoroExSpec.default_voice = none →
            kokoro_resolve_voice kokoroExSpec none
              = Except.error "voice is required for this model"))
      ∧ kokoro_resolve_voice kokoroExSpec (some " ") = Except.error "voice must be non-empty"
      ∧ ((∃ m, kokoro_resolve_voice kokoroExSpec (some "af") = Except.error m)
          ↔ (kokoroExSpec.voices ≠ [] ∧ "af" ∉ kokoroExSpec.voices))
      ∧ ((kokoroExSpec.voices = [] ∨ "af" ∈ kokoroExSpec.voices) →
          kokoro_resolve_voice kokoroExSpec (some "af") = Except.ok "af")) :=
  ⟨⟨by decide, by decide, by decide⟩,
    kokoro_resolve_voice_cases kokoroExSpec "af" " " (by decide) (by decide) (by decide)⟩

/-- The lookup of `_find_voice_file` fails exactly when no entry matches the
filename case-insensitively. -/
theorem find_voice_file_none_iff (dir : String) (entries : List String) (f : String) :
    find_voice_file dir entries f = none ↔ entryMatchB entries f = false := by
  rw [find_voice_file, entryMatchB]
  by_cases hc : entries.contains f = true
  · have hmem : f ∈ entries := by
      simpa using hc
    simp only [hc, if_true]
    constructor
    · intro h
      exact Option.noConfusion h
    · intro h
      have : entries.any (fun e => pyLower e = pyLower f) = true :=
        List.any_eq_true.mpr ⟨f, hmem, by simp⟩
      rw [this] at h
      exact Bool.noConfusion h
  · simp only [Bool.not_eq_true] at hc
    simp only [hc, Bool.false_eq_true, if_false]
    cases hfind : entries.find? (fun e => decide (pyLower e = pyLower f)) with
    | some e =>
      simp only
      constructor
      · intro h
        exact Option.noConfusion h
      · intro h
        have hp := List.find?_some hfind
        have hm := List.mem_of_find?_eq_some hfind
        have : entries.any (fun e => pyLower e = pyLower f) = true :=
          List.any_eq_true.mpr ⟨e, hm, hp⟩
        rw [this] at h
        exact Bool.noConfusion h
    | none =>
      simp only
      constructor
      · intro _
        rw [Bool.eq_false_iff]
        intro hany
        obtain ⟨e, hm, hp⟩ := List.any_eq_true.mp hany
        have := List.find?_eq_none.mp hfind e hm
        exact this hp
      · intro _
        trivial

/-- A successful `_find_voice_file` lookup returns the directory-joined name
of an entry that matches the filename case-insensitively. -/
theorem find_voice_file_some (dir : String) (entries : List String) (f p : String)
    (h : find_voice_file dir entries f = some p) :
    ∃ e, e ∈ entries ∧ pyLower e = pyLower f ∧ p = dir ++ "/" ++ e := by
  rw [find_voice_file] at h
  by_cases hc : entries.contains f = true
  · rw [if_pos hc] at h
    refine ⟨f, by simpa using hc, rfl, ?_⟩
    exact (Option.some_inj.mp h).symm
  · simp only [Bool.not_eq_true] at hc
    rw [hc] at h
    simp only [Bool.false_eq_true, if_false] at h
    cases hfind : entries.find? (fun e => decide (pyLower e = pyLower f)) with
    | some e =>
      rw [hfind] at h
      exact ⟨e, List.mem_of_find?_eq_some hfind, by simpa using List.find?_some hfind,
        (Option.some_inj.mp h).symm⟩
    | none =>
      rw [hfind] at h
      exact Option.noConfusion h

/-- When `splitext` reports no extension the root is the whole filename. -/
theorem splitext_no_ext (cs : List Char) (h : (splitext cs).2 = []) :
    (splitext cs).1 = cs := by
  rw [splitext] at h ⊢
  cases hrest : cs.reverse.dropWhile (fun c => c ≠ '.') with
  | nil => simp [hrest]
  | cons d revRoot =>
    simp only [hrest] at h ⊢
    by_cases hall : revRoot.all (fun c => c = '.') = true
    · simp [hall]
    · simp only [Bool.not_eq_true] at hall
      simp [hall] at h

/-- C3 counterexample: with both `clip.wav` and `clip.flac` present in the
clone directory, resolving the bare name `clip` does not fail — it
resolves to the `.wav` candidate, refuting the claim that resolution fails
when both files exist. -/
theorem resolve_ref_audio_both_counterexample :
    "clip.wav" ∈ (bothClipEnv.listing.getD []) ∧ "clip.flac" ∈ (bothClipEnv.listing.getD [])
    ∧ resolve_ref_audio bothClipEnv "clip" = Except.ok "/voices/clip.wav" :=
  ⟨by decide, by decide, rfl⟩

/-- C3 (amended): for a configured, existing clone directory and a valid
bare filename without extension, resolution returns the `.wav` candidate
when one matches (case-insensitively), otherwise the `.flac` candidate
when one matches, and fails only when neither exists. -/
theorem resolve_ref_audio_extensionless (dir : String) (entries : List String) (name : String)
    (hdir : dir ≠ "") (htrim : pyStrip name = name) (hne : name ≠ "")
    (hd1 : name ≠ ".") (hd2 : name ≠ "..") (hsep : name.data.contains '/' = false)
    (hext : (splitext name.data).2 = []) :
    (entryMatchB entries (name ++ ".wav") = true →
      ∃ e, e ∈ entries ∧ pyLower e = pyLower (name ++ ".wav") ∧
        resolve_ref_audio ⟨some dir, some entries⟩ name = Except.ok (dir ++ "/" ++ e))
    ∧ (entryMatchB entries (name ++ ".wav") = false →
        entryMatchB entries (name ++ ".flac") = true →
      ∃ e, e ∈ entries ∧ pyLower e = pyLower (name ++ ".flac") ∧
        resolve_ref_audio ⟨some dir, some entries⟩ name = Except.ok (dir ++ "/" ++ e))
    ∧ (entryMatchB entries (name ++ ".wav") = false →
        entryMatchB entries (name ++ ".flac") = false →
      resolve_ref_audio ⟨some dir, some entries⟩ name
        = Except.error ("Voice file " ++ name ++ " not found in " ++ dir)) := by
  have hor : ¬(name = "." ∨ name = "..") := fun h => h.elim hd1 hd2
  have hroot : String.mk (splitext name.data).1 = name := by
    rw [splitext_no_ext name.data hext]
  have hred : resolve_ref_audio ⟨some dir, some entries⟩ name
      = (match find_voice_file dir entries (name ++ ".wav") with
         | some p => Except.ok p
         | none =>
           match find_voice_file dir entries (name ++ ".flac") with
           | some p => Except.ok p
           | none => Except.error ("Voice file " ++ name ++ " not found in " ++ dir)) := by
    rw [resolve_ref_audio]
    simp only [htrim, if_neg hne, if_neg hor, hsep, Bool.false_eq_true, if_false,
      if_neg hdir, hext, ne_eq, not_true_eq_false, if_false, hroot]
  refine ⟨?_, ?_, ?_⟩
  · intro hwav
    cases hf : find_voice_file dir entries (name ++ ".wav") with
    | none =>
      rw [(find_voice_file_none_iff dir entries (name ++ ".wav")).mp hf] at hwav
      exact Bool.noConfusion hwav
    | some p =>
      obtain ⟨e, hm, hl, hp⟩ := find_voice_file_some dir entries (name ++ ".wav") p hf
      exact ⟨e, hm, hl, by rw [hred, hf, hp]⟩
  · intro hwav hflac
    have hfw : find_voice_file dir entries (name ++ ".wav") = none :=
      (find_voice_file_none_iff dir entries (name ++ ".wav")).mpr hwav
    cases hf : find_voice_file dir entries (name ++ ".flac") with
    | none =>
      rw [(find_voice_file_none_iff dir entries (name ++ ".flac")).mp hf] at hflac
      exact Bool.noConfusion hflac
    | some p =>
      obtain ⟨e, hm, hl, hp⟩ := find_voice_file_some dir entries (name ++ ".flac") p hf
      refine ⟨e, hm, hl, ?_⟩
      rw [hred, hfw, hf, hp]
  · intro hwav hflac
    have hfw : find_voice_file dir entries (name ++ ".wav") = none :=
      (find_voice_file_none_iff dir entries (name ++ ".wav")).mpr hwav
    have hff : find_voice_file dir entries (name ++ ".flac") = none :=
      (find_voice_file_none_iff dir entries (name ++ ".flac")).mpr hflac
    rw [hred, hfw, hff]

/-- Concrete instantiation of the extensionless resolution cases: only
`clip.flac` exists, so the bare name `clip` resolves to it. -/
theorem resolve_ref_audio_extensionless_witness :
    ("/voices" ≠ "" ∧ pyStrip "clip" = "clip" ∧ "clip" ≠ "" ∧ "clip" ≠ "." ∧ "clip" ≠ ".."
      ∧ "clip".data.contains '/' = false ∧ (splitext "clip".data).2 = [])
    ∧ (entryMatchB ["clip.flac"] ("clip" ++ ".wav") = false
        → entryMatchB ["clip.flac"] ("clip" ++ ".flac") = true →
        ∃ e, e ∈ ["clip.flac"] ∧ pyLower e = pyLower ("clip" ++ ".flac") ∧
          resolve_ref_audio ⟨some "/voices", some ["clip.flac"]⟩ "clip"
            = Except.ok ("/voices" ++ "/" ++ e)) :=
  ⟨⟨by decide, by decide, by decide, by decide, by decide, by decide, by decide⟩,
    (resolve_ref_audio_extensionless "/voices" ["clip.flac"] "clip"
      (by decide) (by decide) (by decide) (by decide) (by decide) (by decide) (by decide)).2.1⟩

/-- Appending cache entries preserves existing lookups. -/
theorem lookup_append_of_some {l l2 : List (String × ℕ)} {k : String} {v : ℕ}
    (h : l.lookup k = some v) : (l ++ l2).lookup k = some v := by
  rw [List.lookup_append, h]
  rfl

/-- Appending a fresh cache entry makes it found. -/
theorem lookup_append_self {l : List (String × ℕ)} {k : String} {v : ℕ}
    (h : l.lookup k = none) : (l ++ [(k, v)]).lookup k = some v := by
  rw [List.lookup_append, h]
  simp [List.lookup_cons]

/-- Effects of a successful `_get_cached_engine` call: the obtained pair is
cached under the requested id, the active slot is untouched, and all prior
cache entries survive. -/
theorem getCachedEngine_ok (env : EngineEnv) (s : MMState) (id : String) (e : ℕ) (s1 : MMState)
    (h : getCachedEngine env s id = Except.ok (e, s1)) :
    s1.cache.lookup id = some e ∧ s1.active = s.active
      ∧ (∀ k v, s.cache.lookup k = some v → s1.cache.lookup k = some v) := by
  rw [getCachedEngine] at h
  cases hl : s.cache.lookup id with
  | some v =>
    rw [hl] at h
    injection h with h1
    injection h1 with he hs
    subst hs
    subst he
    exact ⟨hl, rfl, fun _ _ hv => hv⟩
  | none =>
    rw [hl] at h
    by_cases hload : env.loadOk id = true
    · rw [if_pos hload] at h
      injection h with h1
      injection h1 with he hs
      subst hs
      subst he
      refine ⟨lookup_append_self hl, rfl, ?_⟩
      intro k v hv
      exact lookup_append_of_some hv
    · rw [if_neg hload] at h
      exact Except.noConfusion h

/-- Effects of a successful slow-path `get_engine` call. -/
theorem getEngineSlow_ok (env : EngineEnv) (s : MMState) (key : String) (e : ℕ) (s1 : MMState)
    (h : getEngineSlow env s key = Except.ok (e, s1)) :
    s1.cache.lookup key = some e ∧ s1.active = some (key, e)
      ∧ (∀ k v, s.cache.lookup k = some v → s1.cache.lookup k = some v) := by
  rw [getEngineSlow] at h
  by_cases hc : env.registryIds.contains key = true
  · rw [hc] at h
    simp only [Bool.not_true, Bool.false_eq_true, if_false] at h
    cases hg : getCachedEngine env s key with
    | error m =>
      rw [hg] at h
      exact Except.noConfusion h
    | ok pair =>
      obtain ⟨eng, s2⟩ := pair
      rw [hg] at h
      injection h with h1
      injection h1 with he hs
      subst he
      subst hs
      obtain ⟨hcache, _, hpres⟩ := getCachedEngine_ok env s key eng s2 hg
      exact ⟨hcache, rfl, hpres⟩
  · simp only [Bool.not_eq_true] at hc
    rw [hc] at h
    simp only [Bool.not_false, if_true] at h
    exact Except.noConfusion h

/-- Effects of a successful `get_engine` call under the manager invariant:
the invariant is preserved, the returned pair is cached under the
requested key, and all prior cache entries survive. -/
theorem get_engine_ok (env : EngineEnv) (s : MMState) (key : String) (e : ℕ) (s1 : MMState)
    (hinv : mmInv s) (h : get_engine env s key = Except.ok (e, s1)) :
    mmInv s1 ∧ s1.cache.lookup key = some e
      ∧ (∀ k v, s.cache.lookup k = some v → s1.cache.lookup k = some v) := by
  rw [get_engine] at h
  cases ha : s.active with
  | none =>
    rw [ha] at h
    obtain ⟨hcache, hact, hpres⟩ := getEngineSlow_ok env s key e s1 h
    refine ⟨?_, hcache, hpres⟩
    intro k v hkv
    rw [hact] at hkv
    injection hkv with hkv1
    injection hkv1 with hk hv
    subst hk
    subst hv
    exact hcache
  | some pair =>
    obtain ⟨k', e'⟩ := pair
    rw [ha] at h
    dsimp only at h
    by_cases hk : k' = key
    · rw [if_pos hk] at h
      injection h with h1
      injection h1 with he hs
      subst he
      subst hs
      refine ⟨hinv, ?_, fun _ _ hv => hv⟩
      rw [← hk]
      exact hinv k' e' ha
    · rw [if_neg hk] at h
      obtain ⟨hcache, hact, hpres⟩ := getEngineSlow_ok env s key e s1 h
      refine ⟨?_, hcache, hpres⟩
      intro k v hkv
      rw [hact] at hkv
      injection hkv with hkv1
      injection hkv1 with hk1 hv1
      subst hk1
      subst hv1
      exact hcache

/-- Effects of a successful `load_default` call. -/
theorem load_default_ok (env : EngineEnv) (s : MMState) (s1 : MMState)
    (h : load_default env s = Except.ok s1) :
    mmInv s1 ∧ (∀ k v, s.cache.lookup k = some v → s1.cache.lookup k = some v) := by
  rw [load_default] at h
  cases hg : getCachedEngine env s env.defaultModel with
  | error m =>
    rw [hg] at h
    exact Except.noConfusion h
  | ok pair =>
    obtain ⟨eng, s2⟩ := pair
    rw [hg] at h
    injection h with hs
    subst hs
    obtain ⟨hcache, _, hpres⟩ := getCachedEngine_ok env s env.defaultModel eng s2 hg
    refine ⟨?_, hpres⟩
    intro k v hkv
    injection hkv with hkv1
    injection hkv1 with hk hv
    subst hk
    subst hv
    exact hcache

/-- The `load_all` loop never touches the active slot and keeps every
existing cache entry. -/
theorem loadAllGo_pres (env : EngineEnv) (ids : List String) (s : MMState) :
    (loadAllGo env ids s).1.active = s.active
      ∧ (∀ k v, s.cache.lookup k = some v → (loadAllGo env ids s).1.cache.lookup k = some v) := by
  induction ids generalizing s with
  | nil => exact ⟨rfl, fun _ _ hv => hv⟩
  | cons id rest ih =>
    rw [loadAllGo]
    by_cases hc : (s.cache.lookup id).isSome = true
    · rw [if_pos hc]
      exact ih s
    · rw [if_neg hc]
      by_cases hload : env.loadOk id = true
      · rw [if_pos hload]
        obtain ⟨hact, hpres⟩ :=
          ih { s with cache := s.cache ++ [(id, s.nextId)], nextId := s.nextId + 1 }
        refine ⟨hact, ?_⟩
        intro k v hv
        exact hpres k v (lookup_append_of_some hv)
      · rw [if_neg hload]
        exact ⟨rfl, fun _ _ hv => hv⟩

/-- Each manager operation preserves the invariant. -/
theorem mmInv_step (env : EngineEnv) (s : MMState) (op : MMOp) (hinv : mmInv s) :
    mmInv (mmStep env s op) := by
  cases op with
  | loadDefault =>
    rw [mmStep]
    cases h : load_default env s with
    | error m => exact hinv
    | ok s1 => exact (load_default_ok env s s1 h).1
  | loadAll =>
    rw [mmStep]
    obtain ⟨hact, hpres⟩ := loadAllGo_pres env env.registryIds s
    intro k e hke
    rw [load_all] at hke ⊢
    rw [hact] at hke
    exact hpres k e (hinv k e hke)
  | getEngine key =>
    rw [mmStep]
    cases h : get_engine env s key with
    | error m => exact hinv
    | ok pair => exact (get_engine_ok env s key pair.1 pair.2 hinv
        (by rw [h])).1

/-- Each manager operation preserves existing cache entries. -/
theorem mmStep_cache_pres (env : EngineEnv) (s : MMState) (op : MMOp) (k : String) (v : ℕ)
    (h : s.cache.lookup k = some v) : (mmStep env s op).cache.lookup k = some v := by
  cases op with
  | loadDefault =>
    rw [mmStep]
    cases hl : load_default env s with
    | error m => exact h
    | ok s1 => exact (load_default_ok env s s1 hl).2 k v h
  | loadAll =>
    rw [mmStep]
    rw [load_all]
    exact (loadAllGo_pres env env.registryIds s).2 k v h
  | getEngine key =>
    rw [mmStep]
    cases hl : get_engine env s key with
    | error m => exact h
    | ok pair =>
      cases hp : pair with
      | mk e s1 =>
        rw [get_engine] at hl
        cases ha : s.active with
        | none =>
          rw [ha] at hl
          rw [hp] at hl
          exact (getEngineSlow_ok env s key e s1 hl).2.2 k v h
        | some pr =>
          obtain ⟨k', e'⟩ := pr
          rw [ha, hp] at hl
          dsimp only at hl ⊢
          by_cases hk : k' = key
          · rw [if_pos hk] at hl
            injection hl with h1
            injection h1 with he hs
            subst hs
            exact h
          · rw [if_neg hk] at hl
            exact (getEngineSlow_ok env s key e s1 hl).2.2 k v h

/-- The invariant holds in every state reachable from an invariant state. -/
theorem mmInv_run (env : EngineEnv) (ops : List MMOp) (s : MMState) (hinv : mmInv s) :
    mmInv (mmRun env ops s) := by
  induction ops generalizing s with
  | nil => exact hinv
  | cons op rest ih => exact ih (mmStep env s op) (mmInv_step env s op hinv)

/-- Cache entries persist across any sequence of manager operations. -/
theorem mmRun_cache_pres (env : EngineEnv) (ops : List MMOp) (s : MMState) (k : String) (v : ℕ)
    (h : s.cache.lookup k = some v) : (mmRun env ops s).cache.lookup k = some v := by
  induction ops generalizing s with
  | nil => exact h
  | cons op rest ih => exact ih (mmStep env s op) (mmStep_cache_pres env s op k v h)

/-- The initial manager state satisfies the invariant. -/
theorem mmInv_init : mmInv initMMState := by
  intro k e h
  exact Option.noConfusion h

/-- C4: after any sequence of `load_default`, `load_all` and `get_engine`
operations from the initial empty state, a non-empty active slot is always
cached under its key with the identical engine/adapter pair. -/
theorem manager_active_cached (env : EngineEnv) (ops : List MMOp) (k : String) (e : ℕ)
    (h : (mmRun env ops initMMState).active = some (k, e)) :
    (mmRun env ops initMMState).cache.lookup k = some e :=
  mmInv_run env ops initMMState mmInv_init k e h

/-- Concrete instantiation of the manager invariant after one engine
fetch. -/
theorem manager_active_cached_witness :
    (mmRun envOneModel [MMOp.getEngine "a"] initMMState).active = some ("a", 0)
    ∧ (mmRun envOneModel [MMOp.getEngine "a"] initMMState).cache.lookup "a" = some 0 :=
  ⟨rfl, manager_active_cached envOneModel [MMOp.getEngine "a"] "a" 0 rfl⟩

/-- C5: once `get_engine` has succeeded for a catalog key, every later call
with the same key — after any further sequence of manager operations —
returns the identical cached pair, without creating a new engine (the
allocation counter and the cache are unchanged by the call). -/
theorem get_engine_idempotent (env : EngineEnv) (ops1 ops2 : List MMOp) (k : String)
    (e : ℕ) (s1 : MMState)
    (hreg : env.registryIds.contains k = true)
    (hfirst : get_engine env (mmRun env ops1 initMMState) k = Except.ok (e, s1)) :
    ∃ s3, get_engine env (mmRun env ops2 s1) k = Except.ok (e, s3)
      ∧ s3.cache = (mmRun env ops2 s1).cache
      ∧ s3.nextId = (mmRun env ops2 s1).nextId := by
  have hinv0 : mmInv (mmRun env ops1 initMMState) := mmInv_run env ops1 initMMState mmInv_init
  obtain ⟨hinv1, hcache1, _⟩ :=
    get_engine_ok env (mmRun env ops1 initMMState) k e s1 hinv0 hfirst
  have hinv2 : mmInv (mmRun env ops2 s1) := mmInv_run env ops2 s1 hinv1
  have hcache2 : (mmRun env ops2 s1).cache.lookup k = some e :=
    mmRun_cache_pres env ops2 s1 k e hcache1
  rw [get_engine]
  cases ha : (mmRun env ops2 s1).active with
  | none =>
    rw [getEngineSlow, hreg]
    simp only [Bool.not_true, Bool.false_eq_true, if_false]
    rw [getCachedEngine, hcache2]
    exact ⟨_, rfl, rfl, rfl⟩
  | some pair =>
    obtain ⟨k', e'⟩ := pair
    dsimp only
    by_cases hk : k' = k
    · rw [if_pos hk]
      have := hinv2 k' e' ha
      rw [hk, hcache2] at this
      injection this with he
      rw [he]
      exact ⟨_, rfl, rfl, rfl⟩
    · rw [if_neg hk]
      rw [getEngineSlow, hreg]
      simp only [Bool.not_true, Bool.false_eq_true, if_false]
      rw [getCachedEngine, hcache2]
      exact ⟨_, rfl, rfl, rfl⟩

/-- Concrete instantiation of `get_engine` idempotence: the second fetch of
model `"a"` returns the pair created by the first fetch. -/
theorem get_engine_idempotent_witness :
    (envOneModel.registryIds.contains "a" = true
      ∧ get_engine envOneModel (mmRun envOneModel [] initMMState) "a"
          = Except.ok (0, ⟨some ("a", 0), [("a", 0)], 1⟩))
    ∧ ∃ s3, get_engine envOneModel
          (mmRun envOneModel [MMOp.loadDefault] ⟨some ("a", 0), [("a", 0)], 1⟩) "a"
        = Except.ok (0, s3)
      ∧ s3.cache = (mmRun envOneModel [MMOp.loadDefault] ⟨some ("a", 0), [("a", 0)], 1⟩).cache
      ∧ s3.nextId = (mmRun envOneModel [MMOp.loadDefault] ⟨some ("a", 0), [("a", 0)], 1⟩).nextId :=
  ⟨⟨rfl, rfl⟩,
    get_engine_idempotent envOneModel [] [MMOp.loadDefault] "a" 0
      ⟨some ("a", 0), [("a", 0)], 1⟩ rfl rfl⟩

/-- On failure the `load_all` loop has processed a prefix of the ids: the
failing id is reported in the error, every id before it is cached in the
final state, and all previously cached entries survive. -/
theorem loadAllGo_fail (env : EngineEnv) (ids : List String) (s s' : MMState) (msg : String)
    (h : loadAllGo env ids s = (s', some msg)) :
    ∃ pre fid post, ids = pre ++ fid :: post ∧ msg = preloadErrMsg fid
      ∧ env.loadOk fid = false
      ∧ (∀ j ∈ pre, ((s'.cache.lookup j).isSome = true))
      ∧ (∀ k v, s.cache.lookup k = some v → s'.cache.lookup k = some v) := by
  induction ids generalizing s with
  | nil =>
    rw [loadAllGo] at h
    injection h with _ h2
    exact Option.noConfusion h2
  | cons id rest ih =>
    rw [loadAllGo] at h
    by_cases hc : (s.cache.lookup id).isSome = true
    · rw [if_pos hc] at h
      obtain ⟨pre, fid, post, hsplit, hmsg, hload, hpre, hpres⟩ := ih s h
      refine ⟨id :: pre, fid, post, by rw [hsplit]; rfl, hmsg, hload, ?_, hpres⟩
      intro j hj
      rcases List.mem_cons.mp hj with hj | hj
      · subst hj
        obtain ⟨v, hv⟩ := Option.isSome_iff_exists.mp hc
        rw [hpres j v hv]
        rfl
      · exact hpre j hj
    · rw [if_neg hc] at h
      by_cases hload : env.loadOk id = true
      · rw [if_pos hload] at h
        obtain ⟨pre, fid, post, hsplit, hmsg, hlf, hpre, hpres⟩ :=
          ih { s with cache := s.cache ++ [(id, s.nextId)], nextId := s.nextId + 1 } h
        have hnone : s.cache.lookup id = none := by
          cases hl : s.cache.lookup id with
          | none => rfl
          | some v =>
            rw [hl] at hc
            exact absurd rfl hc
        refine ⟨id :: pre, fid, post, by rw [hsplit]; rfl, hmsg, hlf, ?_, ?_⟩
        · intro j hj
          rcases List.mem_cons.mp hj with hj | hj
          · subst hj
            rw [hpres j s.nextId (lookup_append_self hnone)]
            rfl
          · exact hpre j hj
        · intro k v hv
          exact hpres k v (lookup_append_of_some hv)
      · rw [if_neg hload] at h
        injection h with h1 h2
        injection h2 with h3
        simp only [Bool.not_eq_true] at hload
        subst h1
        exact ⟨[], id, rest, rfl, h3.symm, hload, by intro j hj; exact absurd hj (List.not_mem_nil j),
          fun _ _ hv => hv⟩

/-- C7: when the model preload aborts, the raised error names the offending
model id (the first uncached id that fails to load), and the cache
retains every entry inserted before the failure — both entries that
existed before the call and those added for earlier catalog ids; nothing
is rolled back. -/
theorem load_all_partial_on_failure (env : EngineEnv) (s s' : MMState) (msg : String)
    (h : load_all env s = (s', some msg)) :
    ∃ pre fid post, env.registryIds = pre ++ fid :: post ∧ msg = preloadErrMsg fid
      ∧ env.loadOk fid = false
      ∧ (∀ j ∈ pre, ((s'.cache.lookup j).isSome = true))
      ∧ (∀ k v, s.cache.lookup k = some v → s'.cache.lookup k = some v) := by
  rw [load_all] at h
  exact loadAllGo_fail env env.registryIds s s' msg h

/-- Concrete instantiation of the partial-preload property: loading `"b"`
fails after `"a"` was cached, and `"a"` stays cached. -/
theorem load_all_partial_on_failure_witness :
    (load_all envFailB initMMState = (⟨none, [("a", 0)], 1⟩, some (preloadErrMsg "b")))
    ∧ ∃ pre fid post, envFailB.registryIds = pre ++ fid :: post
      ∧ preloadErrMsg "b" = preloadErrMsg fid
      ∧ envFailB.loadOk fid = false
      ∧ (∀ j ∈ pre, ((MMState.mk none [("a", 0)] 1).cache.lookup j).isSome = true)
      ∧ (∀ k v, initMMState.cache.lookup k = some v
          → (MMState.mk none [("a", 0)] 1).cache.lookup k = some v) :=
  ⟨rfl, load_all_partial_on_failure envFailB initMMState ⟨none, [("a", 0)], 1⟩
    (preloadErrMsg "b") rfl⟩


/-- The error result of `Except.isOk`. -/
theorem isOk_error {ε α : Type} (m : ε) : (Except.error m : Except ε α).isOk = false := rfl

/-- The success result of `Except.isOk`. -/
theorem isOk_ok {ε α : Type} (a : α) : (Except.ok a : Except ε α).isOk = true := rfl

/-- The validation loop succeeds exactly when every remaining spec is
valid, the trimmed ids are pairwise distinct, and none of them collides
with an already accumulated key. -/
theorem loadSpecs_isOk_iff (specs : List ModelSpec) (acc : List (String × ModelSpec)) :
    (loadSpecs specs acc).isOk = true
      ↔ ((∀ s ∈ specs, specOk s)
          ∧ (specs.map (fun s => pyStrip s.id)).Nodup
          ∧ (∀ i ∈ specs.map (fun s => pyStrip s.id), i ∉ acc.map Prod.fst)) := by
  induction specs generalizing acc with
  | nil => simp [loadSpecs, isOk_ok]
  | cons spec rest ih =>
    rw [loadSpecs]
    by_cases h1 : pyStrip spec.id = ""
    · rw [if_pos h1, isOk_error]
      refine iff_of_false (by simp) ?_
      rintro ⟨hall, _, _⟩
      exact (hall spec (List.mem_cons_self spec rest)).1 h1
    · rw [if_neg h1]
      by_cases h2 : ((acc.map Prod.fst).contains (pyStrip spec.id)) = true
      · rw [if_pos h2, isOk_error]
        have hmem : pyStrip spec.id ∈ acc.map Prod.fst := by simpa using h2
        refine iff_of_false (by simp) ?_
        rintro ⟨_, _, hfr⟩
        exact hfr (pyStrip spec.id) (by simp) hmem
      · rw [if_neg h2]
        have hnacc : pyStrip spec.id ∉ acc.map Prod.fst := by simpa using h2
        by_cases h3 : pyStrip spec.repo_id = ""
        · rw [if_pos h3, isOk_error]
          refine iff_of_false (by simp) ?_
          rintro ⟨hall, _, _⟩
          exact (hall spec (List.mem_cons_self spec rest)).2.1 h3
        · rw [if_neg h3]
          cases hv : spec.default_voice with
          | some v =>
            dsimp only
            by_cases h4 : normVoices spec.voices ≠ [] ∧ v ∉ normVoices spec.voices
            · rw [if_pos h4, isOk_error]
              refine iff_of_false (by simp) ?_
              rintro ⟨hall, _, _⟩
              have hdv := (hall spec (List.mem_cons_self spec rest)).2.2
              rw [dvOkB, hv] at hdv
              simp only [Bool.or_eq_true, decide_eq_true_eq] at hdv
              rcases hdv with hnil | hcmem
              · exact h4.1 hnil
              · exact h4.2 (by simpa using hcmem)
            · rw [if_neg h4]
              have hspecok : specOk spec := by
                refine ⟨h1, h3, ?_⟩
                rw [dvOkB, hv]
                by_cases hnil : normVoices spec.voices = []
                · simp [hnil]
                · push_neg at h4
                  have := h4 hnil
                  simp [this]
              rw [ih]
              simp only [List.map_append, List.map_cons, List.map_nil, List.forall_mem_cons,
                List.nodup_cons, List.mem_append, List.mem_singleton]
              constructor
              · rintro ⟨hrest, hnd, hfr⟩
                refine ⟨⟨hspecok, hrest⟩, ⟨?_, hnd⟩, ⟨hnacc, ?_⟩⟩
                · intro hmem
                  exact (hfr _ hmem) (Or.inr rfl)
                · intro i hi hmem
                  exact (hfr i hi) (Or.inl hmem)
              · rintro ⟨⟨_, hrest⟩, ⟨hnotin, hnd⟩, _, hfr⟩
                refine ⟨hrest, hnd, ?_⟩
                intro i hi hmem
                rcases hmem with hm | hm
                · exact hfr i hi hm
                · exact hnotin (hm ▸ hi)
          | none =>
            dsimp only
            have hspecok : specOk spec := by
              refine ⟨h1, h3, ?_⟩
              rw [dvOkB, hv]
            rw [ih]
            simp only [List.map_append, List.map_cons, List.map_nil, List.forall_mem_cons,
              List.nodup_cons, List.mem_append, List.mem_singleton]
            constructor
            · rintro ⟨hrest, hnd, hfr⟩
              refine ⟨⟨hspecok, hrest⟩, ⟨?_, hnd⟩, ⟨hnacc, ?_⟩⟩
              · intro hmem
                exact (hfr _ hmem) (Or.inr rfl)
              · intro i hi hmem
                exact (hfr i hi) (Or.inl hmem)
            · rintro ⟨⟨_, hrest⟩, ⟨hnotin, hnd⟩, _, hfr⟩
              refine ⟨hrest, hnd, ?_⟩
              intro i hi hmem
              rcases hmem with hm | hm
              · exact hfr i hi hm
              · exact hnotin (hm ▸ hi)

/-- On success the mapping keys are the accumulated keys followed by the
trimmed ids in catalog order. -/
theorem loadSpecs_keys (specs : List ModelSpec) (acc out : List (String × ModelSpec))
    (h : loadSpecs specs acc = Except.ok out) :
    out.map Prod.fst = acc.map Prod.fst ++ specs.map (fun s => pyStrip s.id) := by
  induction specs generalizing acc with
  | nil =>
    rw [loadSpecs] at h
    injection h with h1
    subst h1
    simp
  | cons spec rest ih =>
    rw [loadSpecs] at h
    by_cases h1 : pyStrip spec.id = ""
    · rw [if_pos h1] at h
      exact Except.noConfusion h
    · rw [if_neg h1] at h
      by_cases h2 : ((acc.map Prod.fst).contains (pyStrip spec.id)) = true
      · rw [if_pos h2] at h
        exact Except.noConfusion h
      · rw [if_neg h2] at h
        by_cases h3 : pyStrip spec.repo_id = ""
        · rw [if_pos h3] at h
          exact Except.noConfusion h
        · rw [if_neg h3] at h
          cases hv : spec.default_voice with
          | some v =>
            rw [hv] at h
            dsimp only at h
            by_cases h4 : normVoices spec.voices ≠ [] ∧ v ∉ normVoices spec.voices
            · rw [if_pos h4] at h
              exact Except.noConfusion h
            · rw [if_neg h4] at h
              have := ih _ h
              rw [this]
              simp
          | none =>
            rw [hv] at h
            dsimp only at h
            have := ih _ h
            rw [this]
            simp

/-- C2 counterexample: a one-model catalog whose `repo_id` is empty meets
every condition of the claimed success characterization, yet loading
fails. -/
theorem load_registry_claim_counterexample :
    claimRegistryCond repoIdCounterexReg
    ∧ repoIdCounterexReg.models ≠ []
    ∧ (load_registry_payload repoIdCounterexReg).isOk = false :=
  ⟨⟨by decide, by decide, fun d hd => Option.noConfusion hd⟩, by decide, rfl⟩

/-- C2 (amended): for every catalog with at least one model,
`load_registry_payload` succeeds iff the trimmed ids are unique and
non-empty, every trimmed `repo_id` is non-empty, every declared
`default_voice` is a member of the normalized voice list when that list is
non-empty, and the resolved default id (the declared `default_model` when
set and non-empty, otherwise the raw first model id) is a trimmed catalog
id. -/
theorem load_registry_success_iff (r : ModelRegistry) (first : ModelSpec)
    (rest : List ModelSpec) (h : r.models = first :: rest) :
    (load_registry_payload r).isOk = true ↔ amendedRegistryCond first r := by
  obtain ⟨dm, models⟩ := r
  simp only at h
  subst h
  rw [load_registry_payload, amendedRegistryCond]
  dsimp only
  cases hls : loadSpecs (first :: rest) [] with
  | error e =>
    rw [isOk_error]
    refine iff_of_false (by simp) ?_
    rintro ⟨hall, hnd, _⟩
    have hok : (loadSpecs (first :: rest) []).isOk = true := by
      rw [loadSpecs_isOk_iff]
      exact ⟨hall, hnd, by simp⟩
    rw [hls, isOk_error] at hok
    exact Bool.noConfusion hok
  | ok byId =>
    have hkeys : byId.map Prod.fst = (first :: rest).map (fun s => pyStrip s.id) := by
      have := loadSpecs_keys (first :: rest) [] byId hls
      simpa using this
    have hok := (loadSpecs_isOk_iff (first :: rest) []).mp (by rw [hls, isOk_ok])
    dsimp only
    by_cases hdm : ((byId.map Prod.fst).contains (resolvedDefaultId dm first)) = true
    · rw [if_pos hdm, isOk_ok]
      refine iff_of_true rfl ⟨hok.1, hok.2.1, ?_⟩
      rw [hkeys] at hdm
      simpa using hdm
    · rw [if_neg hdm, isOk_error]
      refine iff_of_false (by simp) ?_
      rintro ⟨_, _, hmem⟩
      apply hdm
      rw [hkeys]
      simpa using hmem

/-- Concrete instantiation of the amended registry characterization on a
valid two-model catalog. -/
theorem load_registry_success_iff_witness :
    ({ default_model := some "m2", models :=
        [{ id := "m1", repo_id := "r1" }, { id := "m2", repo_id := "r2" }] } :
          ModelRegistry).models
      = { id := "m1", repo_id := "r1" } :: [{ id := "m2", repo_id := "r2" }]
    ∧ ((load_registry_payload { default_model := some "m2", models :=
        [{ id := "m1", repo_id := "r1" }, { id := "m2", repo_id := "r2" }] }).isOk = true
      ↔ amendedRegistryCond { id := "m1", repo_id := "r1" }
          { default_model := some "m2", models :=
            [{ id := "m1", repo_id := "r1" }, { id := "m2", repo_id := "r2" }] }) :=
  ⟨rfl, load_registry_success_iff _ { id := "m1", repo_id := "r1" }
    [{ id := "m2", repo_id := "r2" }] rfl⟩

/-- C10: an empty-string `default_model` behaves exactly like an unset one;
for an otherwise valid catalog, loading succeeds and the resolved default
model is the first model's id. -/
theorem load_registry_empty_default_model (r : ModelRegistry) (first : ModelSpec)
    (rest : List ModelSpec) (hm : r.models = first :: rest)
    (hdm : r.default_model = some "")
    (hvalid : (load_registry_payload { r with default_model := none }).isOk = true) :
    ∃ res, load_registry_payload r = Except.ok res ∧ res.default_model = first.id := by
  obtain ⟨dm0, models⟩ := r
  simp only at hm hdm
  subst hm
  subst hdm
  rw [load_registry_payload] at hvalid ⊢
  dsimp only at hvalid ⊢
  cases hls : loadSpecs (first :: rest) [] with
  | error e =>
    rw [hls] at hvalid
    dsimp only at hvalid
    rw [isOk_error] at hvalid
    exact Bool.noConfusion hvalid
  | ok byId =>
    rw [hls] at hvalid
    dsimp only at hvalid ⊢
    rw [show resolvedDefaultId none first = first.id from rfl] at hvalid
    rw [show resolvedDefaultId (some "") first = first.id from rfl]
    by_cases hdm2 : ((byId.map Prod.fst).contains first.id) = true
    · rw [if_pos hdm2]
      exact ⟨_, rfl, rfl⟩
    · rw [if_neg hdm2] at hvalid
      rw [isOk_error] at hvalid
      exact Bool.noConfusion hvalid

/-- Shared concrete catalog with an empty-string `default_model`. -/
def emptyDmReg : ModelRegistry :=
  { default_model := some "", models := [{ id := "m", repo_id := "r" }] }

/-- Concrete instantiation of the empty-string `default_model` fallback. -/
theorem load_registry_empty_default_model_witness :
    (emptyDmReg.models = { id := "m", repo_id := "r" } :: []
      ∧ emptyDmReg.default_model = some ""
      ∧ (load_registry_payload { emptyDmReg with default_model := none }).isOk = true)
    ∧ ∃ res, load_registry_payload emptyDmReg = Except.ok res
        ∧ res.default_model = ({ id := "m", repo_id := "r" } : ModelSpec).id :=
  ⟨⟨rfl, rfl, rfl⟩,
    load_registry_empty_default_model emptyDmReg
      { id := "m", repo_id := "r" } [] rfl rfl rfl⟩

/-- Right strip: drop trailing whitespace. -/
def rstripChars (cs : List Char) : List Char :=
  (cs.reverse.dropWhile isPySpace).reverse

/-- Stripping is right-stripping after left-stripping. -/
theorem stripChars_eq (cs : List Char) :
    stripChars cs = rstripChars (cs.dropWhile isPySpace) := rfl

/-- Dropped prefixes are never longer than the original list. -/
theorem length_dropWhile_le (p : Char → Bool) (l : List Char) :
    (l.dropWhile p).length ≤ l.length :=
  List.Sublist.length_le (List.dropWhile_sublist p)

/-- Whitespace collapse leaves a leading non-space character in place. -/
theorem collapse_cons_nonspace (c : Char) (l : List Char) (h : isPySpace c = false) :
    collapseWs (c :: l) = c :: collapseWs l := by
  cases l with
  | nil => simp [collapseWs, h]
  | cons c2 l2 => simp [collapseWs, h]

/-- Whitespace collapse turns a leading whitespace run into one space. -/
theorem collapse_cons_space (c : Char) (l : List Char) (h : isPySpace c = true) :
    collapseWs (c :: l) = ' ' :: collapseWs (l.dropWhile isPySpace) := by
  induction l generalizing c with
  | nil => simp [collapseWs, h]
  | cons c2 l2 ih =>
    by_cases h2 : isPySpace c2 = true
    · rw [collapseWs, h, h2]
      simp only [Bool.and_self, if_true]
      rw [ih c2 h2, List.dropWhile_cons_of_pos h2]
    · have h2f : isPySpace c2 = false := by
        simpa using h2
      rw [collapseWs, h, h2f]
      simp only [Bool.and_false, Bool.false_eq_true, if_false, if_true]
      rw [List.dropWhile_cons_of_neg (by simp [h2f])]

/-- Whitespace collapse passes an all-non-space token through unchanged. -/
theorem collapse_append_token (tok l : List Char) (h : ∀ c ∈ tok, isPySpace c = false) :
    collapseWs (tok ++ l) = tok ++ collapseWs l := by
  induction tok with
  | nil => rfl
  | cons c tok' ih =>
    rw [List.cons_append, collapse_cons_nonspace c _ (h c (List.mem_cons_self c tok')),
      ih (fun d hd => h d (List.mem_cons_of_mem c hd))]
    rfl

/-- Tokenization ignores leading whitespace. -/
theorem wsWords_dropWhile (l : List Char) :
    wsWords (l.dropWhile isPySpace) = wsWords l := by
  induction l with
  | nil => rfl
  | cons c l2 ih =>
    by_cases hc : isPySpace c = true
    · rw [List.dropWhile_cons_of_pos hc, ih, wsWords, if_pos hc]
    · rw [List.dropWhile_cons_of_neg (by simp [hc])]

/-- Dropping from the left of an append stops at a non-matching element of
the right part. -/
theorem dropWhile_append_cons (p : Char → Bool) (l t : List Char) (c : Char)
    (h : p c = false) :
    List.dropWhile p (l ++ c :: t) = List.dropWhile p l ++ c :: t := by
  induction l with
  | nil =>
    rw [List.nil_append, List.dropWhile_cons_of_neg (by simp [h])]
    rfl
  | cons a l' ih =>
    by_cases ha : p a = true
    · rw [List.cons_append, List.dropWhile_cons_of_pos ha, ih,
        List.dropWhile_cons_of_pos ha]
    · rw [List.cons_append, List.dropWhile_cons_of_neg (by simp [ha]),
        List.dropWhile_cons_of_neg (by simp [ha])]
      rfl

/-- Right-stripping after a non-empty all-non-space token keeps the token. -/
theorem rstrip_append_token (tok l : List Char) (htok : tok ≠ [])
    (h : ∀ c ∈ tok, isPySpace c = false) :
    rstripChars (tok ++ l) = tok ++ rstripChars l := by
  cases hrev : tok.reverse with
  | nil => exact absurd (by simpa using hrev) htok
  | cons c t' =>
    have hc : isPySpace c = false := by
      have hmem : c ∈ tok := by
        rw [← List.mem_reverse, hrev]
        exact List.mem_cons_self c t'
      exact h c hmem
    rw [rstripChars, List.reverse_append, hrev,
      dropWhile_append_cons isPySpace l.reverse t' c hc, List.reverse_append, ← hrev,
      List.reverse_reverse]
    rfl

/-- Right-stripping keeps one leading space when something non-blank
follows. -/
theorem rstrip_cons_space (l : List Char) (h : rstripChars l ≠ []) :
    rstripChars (' ' :: l) = ' ' :: rstripChars l := by
  have hne : l.reverse.dropWhile isPySpace ≠ [] := by
    intro hnil
    apply h
    rw [rstripChars, hnil]
    rfl
  have hempty : (l.reverse.dropWhile isPySpace).isEmpty = false := by
    cases hx : l.reverse.dropWhile isPySpace with
    | nil => exact absurd hx hne
    | cons a t => rfl
  rw [rstripChars, List.reverse_cons, List.dropWhile_append, hempty]
  simp only [Bool.false_eq_true, if_false]
  rw [List.reverse_append]
  rfl

/-- The head of a surviving `dropWhile` suffix falsifies the predicate. -/
theorem dropWhile_head_false (q : Char → Bool) (l : List Char) (a : Char) (t : List Char)
    (h : l.dropWhile q = a :: t) : q a = false := by
  induction l with
  | nil => exact absurd h (by simp)
  | cons x l' ih =>
    by_cases hx : q x = true
    · rw [List.dropWhile_cons_of_pos hx] at h
      exact ih h
    · rw [List.dropWhile_cons_of_neg (by simp [hx])] at h
      injection h with h1 _
      rw [← h1]
      simpa using hx

/-- Members of a `takeWhile` prefix satisfy the predicate. -/
theorem mem_takeWhile_pred (q : Char → Bool) (l : List Char) (a : Char)
    (h : a ∈ l.takeWhile q) : q a = true := by
  induction l with
  | nil => exact absurd h (List.not_mem_nil a)
  | cons x l' ih =>
    by_cases hx : q x = true
    · rw [List.takeWhile_cons_of_pos hx] at h
      rcases List.mem_cons.mp h with h1 | h1
      · rw [h1]
        exact hx
      · exact ih h1
    · rw [List.takeWhile_cons_of_neg (by simp [hx])] at h
      exact absurd h (List.not_mem_nil a)

/-- Unfolding of the space-join of a leading token. -/
theorem intercalate_cons_tok (tok : List Char) (ts : List (List Char)) :
    List.intercalate [' '] (tok :: ts)
      = tok ++ (match ts with
                | [] => []
                | _ :: _ => ' ' :: List.intercalate [' '] ts) := by
  cases ts with
  | nil => simp [List.intercalate]
  | cons t ts' =>
    show List.intercalate [' '] (tok :: t :: ts') = tok ++ (' ' :: List.intercalate [' '] (t :: ts'))
    simp [List.intercalate, List.intersperse]

/-- Collapsing whitespace runs and stripping both ends produces exactly the
single-space join of the whitespace-separated words of the input. -/
theorem strip_collapse_eq_join (cs : List Char) :
    stripChars (collapseWs cs) = List.intercalate [' '] (wsWords cs) := by
  cases cs with
  | nil => simp [wsWords, collapseWs, stripChars, List.intercalate]
  | cons c cs' =>
    by_cases hc : isPySpace c = true
    · have hlen : (cs'.dropWhile isPySpace).length ≤ cs'.length := length_dropWhile_le _ _
      have IH := strip_collapse_eq_join (cs'.dropWhile isPySpace)
      rw [collapse_cons_space c cs' hc]
      have hskip : stripChars (' ' :: collapseWs (cs'.dropWhile isPySpace))
          = stripChars (collapseWs (cs'.dropWhile isPySpace)) := by
        rw [stripChars_eq, stripChars_eq,
          List.dropWhile_cons_of_pos (show isPySpace ' ' = true by decide)]
      rw [hskip, IH, wsWords_dropWhile, wsWords, if_pos hc]
    · have hcf : isPySpace c = false := by
        simpa using hc
      have htokall : ∀ d ∈ (c :: cs'.takeWhile (fun d => !isPySpace d)), isPySpace d = false := by
        intro d hd
        rcases List.mem_cons.mp hd with h1 | h1
        · rw [h1]
          exact hcf
        · have := mem_takeWhile_pred _ _ _ h1
          simpa using this
      have hsplit : c :: cs' = (c :: cs'.takeWhile (fun d => !isPySpace d))
          ++ cs'.dropWhile (fun d => !isPySpace d) := by
        rw [List.cons_append, List.takeWhile_append_dropWhile]
      conv_lhs => rw [hsplit]
      rw [collapse_append_token _ _ htokall]
      have hstriptok : ∀ Y, stripChars ((c :: cs'.takeWhile (fun d => !isPySpace d)) ++ Y)
          = rstripChars ((c :: cs'.takeWhile (fun d => !isPySpace d)) ++ Y) := by
        intro Y
        rw [stripChars_eq, List.cons_append,
          List.dropWhile_cons_of_neg (by simp [hcf])]
      rw [hstriptok, rstrip_append_token _ _ (List.cons_ne_nil c _) htokall]
      rw [wsWords, if_neg hc, intercalate_cons_tok]
      congr 1
      cases hrest : cs'.dropWhile (fun d => !isPySpace d) with
      | nil => simp [wsWords, collapseWs, rstripChars]
      | cons r R =>
        have hr : isPySpace r = true := by
          have := dropWhile_head_false (fun d => !isPySpace d) cs' r R hrest
          simpa using this
        rw [collapse_cons_space r R hr]
        have hwt : wsWords (r :: R) = wsWords (R.dropWhile isPySpace) := by
          rw [wsWords, if_pos hr, wsWords_dropWhile]
        rw [hwt]
        cases hz : R.dropWhile isPySpace with
        | nil => simp [wsWords, collapseWs, rstripChars, isPySpace]
        | cons d D =>
          have hd : isPySpace d = false := dropWhile_head_false isPySpace R d D hz
          have hlen4 : D.length + 1 ≤ R.length := by
            have e2 := congrArg List.length hz
            have hl2 : (R.dropWhile isPySpace).length ≤ R.length := length_dropWhile_le _ _
            simp only [List.length_cons] at e2
            omega
          have hlen5 : R.length + 1 ≤ cs'.length := by
            have e1 := congrArg List.length hrest
            have hl1 : (cs'.dropWhile (fun d => !isPySpace d)).length ≤ cs'.length :=
              length_dropWhile_le _ _
            simp only [List.length_cons] at e1
            omega
          have IH := strip_collapse_eq_join (d :: D)
          have hcz : collapseWs (d :: D) = d :: collapseWs D := collapse_cons_nonspace d D hd
          have hstr : stripChars (collapseWs (d :: D)) = rstripChars (collapseWs (d :: D)) := by
            rw [stripChars_eq, hcz, List.dropWhile_cons_of_neg (by simp [hd]), ← hcz]
          have hrstr : rstripChars (collapseWs (d :: D))
              = List.intercalate [' '] (wsWords (d :: D)) := by
            rw [← hstr, IH]
          have hne : rstripChars (collapseWs (d :: D)) ≠ [] := by
            rw [hrstr, wsWords, if_neg (by simp [hd]), intercalate_cons_tok]
            simp
          rw [rstrip_cons_space _ hne, hrstr]
          rw [wsWords, if_neg (by simp [hd])]
termination_by cs.length
decreasing_by
  · simp only [List.length_cons]
    omega
  · simp only [List.length_cons]
    omega

/-- C9: the request text is normalized first — internal whitespace runs
collapsed to single spaces and both ends trimmed, i.e. the single-space
join of its whitespace-separated words — and only then validated, the
request failing with HTTP 400 exactly when the normalized text is empty or
longer than the configured maximum. -/
theorem audio_speech_text_validation (maxChars : ℕ) (input : String) :
    normalize_text input = String.mk (List.intercalate [' '] (wsWords input.data))
    ∧ ((validate_input maxChars input).isOk = true
        ↔ (normalize_text input ≠ "" ∧ (normalize_text input).length ≤ maxChars))
    ∧ (∀ code msg, validate_input maxChars input = Except.error (code, msg) → code = 400)
    ∧ (∀ t, validate_input maxChars input = Except.ok t → t = normalize_text input) := by
  refine ⟨?_, ?_, ?_, ?_⟩
  · rw [normalize_text, strip_collapse_eq_join]
  · simp only [validate_input]
    split_ifs with h1 h2
    · refine iff_of_false ?_ (fun h => h.1 h1)
      intro hh
      rw [isOk_error] at hh
      exact Bool.noConfusion hh
    · refine iff_of_false ?_ (fun h => absurd h.2 (by omega))
      intro hh
      rw [isOk_error] at hh
      exact Bool.noConfusion hh
    · exact iff_of_true (isOk_ok _) ⟨h1, by omega⟩
  · intro code msg h
    simp only [validate_input] at h
    split_ifs at h with h1 h2
    · injection h with hp
      injection hp with hcode _
      exact hcode.symm
    · injection h with hp
      injection hp with hcode _
      exact hcode.symm
  · intro t h
    simp only [validate_input] at h
    split_ifs at h with h1 h2
    injection h with hp
    exact hp.symm

/-- Concrete instantiation of the text normalization and validation
property. -/
theorem audio_speech_text_validation_witness :
    normalize_text "  a  b " = String.mk (List.intercalate [' '] (wsWords "  a  b ".data))
    ∧ ((validate_input 5 "  a  b ").isOk = true
        ↔ (normalize_text "  a  b " ≠ "" ∧ (normalize_text "  a  b ").length ≤ 5))
    ∧ (∀ code msg, validate_input 5 "  a  b " = Except.error (code, msg) → code = 400)
    ∧ (∀ t, validate_input 5 "  a  b " = Except.ok t → t = normalize_text "  a  b ") :=
  audio_speech_text_validation 5 "  a  b "
